import Mathlib

/-!
Verification development for the `limlam_mocker` core of
`joint_limlam_mocker` (`load_halos.py` and `halos_to_luminosity.py`).

Embedding conventions:
* The Python `HaloCatalog` is a struct-of-arrays whose per-halo arrays are
  all co-indexed (spec section 3: every structural operation applies the same
  index transform to every per-halo array).  For the structural catalog
  operations of `load_halos.py` we embed it as a list of per-halo records
  over exact rationals, which realises that invariant by construction.
* The vectorised numerical models of `halos_to_luminosity.py` are embedded
  over the reals, with the catalog viewed as parallel lists (`Halos`).
* External numerical sources — numpy random generators, the tabulated
  Behroozi SFR interpolant (built from a data file that is outside the
  repository core) and the astropy comoving-volume function — are modelled
  as abstract function parameters collected in a context record `Ctx`.
  They are deterministic functions of the seed, mirroring numpy generators.
* `sys.exit` is embedded as an `Except.error` carrying the fatal message and
  the (unchanged) halo catalog; a Python runtime exception coming from a
  malformed coefficient tuple is embedded as `Option.none`.
-/

/-! ### Generic helpers mirroring the numpy array operations -/

/-- `np.linspace a b n`: `n` evenly spaced samples from `a` to `b`
(the grid underlying both `np.histogram` bin edges and `np.logspace`). -/
noncomputable def linspace (a b : ℝ) (n : ℕ) : List ℝ :=
  (List.range n).map (fun i : ℕ => a + (i : ℝ) * ((b - a) / ((n : ℝ) - 1)))

/-- `np.logspace a b n` = `10 ** np.linspace a b n`. -/
noncomputable def logspace (a b : ℝ) (n : ℕ) : List ℝ :=
  (linspace a b n).map (fun x => (10 : ℝ) ^ x)

/-- `l[1:] - l[:-1]`: successive differences of a 1-d array. -/
noncomputable def diffs (l : List ℝ) : List ℝ :=
  List.zipWith (fun x y => y - x) l l.tail

/-- `l[:-1] + (l[1:] - l[:-1])/2`: bin centers of a 1-d grid of edges. -/
noncomputable def binCenters (l : List ℝ) : List ℝ :=
  List.zipWith (fun x d => x + d / 2) l (diffs l)

/-- `[np.sum(l[i:]) for i in range(len(l))]`: the reverse cumulative sums
used for both cumulative (luminosity/halo-mass) functions. -/
noncomputable def suffixSums : List ℝ → List ℝ
  | [] => []
  | x :: xs => (x + xs.sum) :: suffixSums xs

/-- `np.min` of a list (0 for the empty list, on which numpy errors out). -/
noncomputable def listMin : List ℝ → ℝ
  | [] => 0
  | x :: xs => xs.foldl min x

/-- `np.max` of a list (0 for the empty list, on which numpy errors out). -/
noncomputable def listMax : List ℝ → ℝ
  | [] => 0
  | x :: xs => xs.foldl max x

/-- Bin counts of `np.histogram` for a given list of bin edges: every bin is
closed-open except the last, which is closed. -/
noncomputable def histCounts (data : List ℝ) : List ℝ → List ℕ
  | [e1, e2] => [(data.filter (fun x => decide (e1 ≤ x ∧ x ≤ e2))).length]
  | e1 :: e2 :: rest =>
      (data.filter (fun x => decide (e1 ≤ x ∧ x < e2))).length
        :: histCounts data (e2 :: rest)
  | _ => []

/-- `np.interp` on a list of (grid point, value) pairs with non-decreasing
grid points: clamps to the first value on the left and the last value on the
right, and interpolates linearly inside each cell.  (Real division by zero
is 0 in Lean, which totalises the degenerate equal-endpoints cell that numpy
leaves undefined.) -/
noncomputable def npInterpP (x : ℝ) : List (ℝ × ℝ) → ℝ
  | [] => 0
  | [(_, f1)] => f1
  | (x1, f1) :: (x2, f2) :: rest =>
    if x ≤ x1 then f1
    else if x ≤ x2 then f1 + (f2 - f1) * (x - x1) / (x2 - x1)
    else npInterpP x ((x2, f2) :: rest)

/-- `np.interp x xp fp`. -/
noncomputable def npinterp (x : ℝ) (xp fp : List ℝ) : ℝ :=
  npInterpP x (xp.zip fp)

/-! ### `load_halos.py`: the halo catalog and its structural operations -/

/-- One halo of the catalog: the per-halo fields consumed by the culling and
observational-cut operations (the remaining per-halo arrays of the class are
transformed identically by construction of the record embedding). -/
structure HaloRec where
  M : ℚ
  redshift : ℚ
  ra : ℚ
  dec : ℚ
  Lco : ℚ
  Lcat : ℚ
deriving DecidableEq

/-- The halo catalog of `load_halos.HaloCatalog`: the co-indexed per-halo
arrays as a list of records, plus the `nhalo` scalar attribute. -/
structure HaloCatalog where
  halos : List HaloRec
  nhalo : ℕ
deriving DecidableEq

/-- The `SimParameters` fields consumed by the structural catalog
operations. -/
structure SimParams where
  nu_rest : ℚ
  nu_i : ℚ
  nu_f : ℚ
  z_i : ℚ
  z_f : ℚ
  min_mass : ℚ
  mass_cutoff : ℚ
  fov_x : ℚ
  fov_y : ℚ
  lcat_cutoff : ℚ
  goal_nobj : ℕ
  vcat_seed : ℕ
  obs_weight : String
  verbose : Bool
deriving DecidableEq

/-- Modelled from the spec: `tools.freq_to_z` (the `tools` module is not part
of the two core source files).  Section 4.7 of the spec: `cull` "converts a
frequency window to a redshift window"; for an emitted rest frequency
observed at `nu`, the redshift is `nu_rest / nu - 1`. -/
def freq_to_z (nu_rest nu : ℚ) : ℚ :=
  nu_rest / nu - 1

/-- `HaloCatalog.indexcut` (`load_halos.py` lines 315-359): crop the catalog
to the passed index array; every per-halo array is indexed identically and
`nhalo` is reset to the new length. -/
def indexcut (idx : List ℕ) (cat : HaloCatalog) : HaloCatalog :=
  let hs := idx.filterMap (fun i => cat.halos[i]?)
  { halos := hs, nhalo := hs.length }

/-- The redshift window computed at the top of `HaloCatalog.cull`
(lines 112-120): convert the frequency limits and swap them if inverted. -/
def cullWindow (params : SimParams) : ℚ × ℚ :=
  let z_i := freq_to_z params.nu_rest params.nu_i
  let z_f := freq_to_z params.nu_rest params.nu_f
  if z_i > z_f then (z_f, z_i) else (z_i, z_f)

/-- The `goodidx` mask of `HaloCatalog.cull` (lines 122-128): strict mass
window, closed redshift window (after the swap), and rectangular
field-of-view in (ra, dec). -/
def cullKeep (params : SimParams) (h : HaloRec) : Prop :=
  params.min_mass < h.M ∧ h.M < params.mass_cutoff ∧
    (cullWindow params).1 ≤ h.redshift ∧ h.redshift ≤ (cullWindow params).2 ∧
    |h.ra| ≤ params.fov_x / 2 ∧ |h.dec| ≤ params.fov_y / 2

instance (params : SimParams) (h : HaloRec) : Decidable (cullKeep params h) := by
  unfold cullKeep; infer_instance

/-- The descending-by-mass comparator realising `np.argsort(M)[::-1]`
followed by `indexcut` in `HaloCatalog.cull` (lines 136-139). -/
def massDesc (a b : HaloRec) : Bool :=
  decide (b.M ≤ a.M)

/-- `HaloCatalog.cull` (lines 100-139).  `np.where` on the boolean mask
followed by `indexcut` is `List.filter`; `np.argsort(M)[::-1]` followed by
`indexcut` is a sort descending by mass.  Returns the mutated parameter
record (`z_i`/`z_f` are written back) together with the culled catalog. -/
def cull (params : SimParams) (cat : HaloCatalog) : SimParams × HaloCatalog :=
  let w := cullWindow params
  let params' := { params with z_i := w.1, z_f := w.2 }
  let cut := cat.halos.filter (fun h => decide (cullKeep params h))
  let sorted := cut.mergeSort massDesc
  (params', { halos := sorted, nhalo := sorted.length })

/-- `getattr(self, attr)` for the per-halo attributes exercised by the
embedded operations. -/
def attrLookup (attr : String) (h : HaloRec) : ℚ :=
  match attr with
  | "M" => h.M
  | "redshift" => h.redshift
  | "ra" => h.ra
  | "dec" => h.dec
  | "Lco" => h.Lco
  | "Lcat" => h.Lcat
  | _ => 0

/-- The Python `TypeError` raised when `attrcut_subset` is called without its
required `params` argument. -/
def attrcutTypeError : String :=
  "TypeError: attrcut_subset() missing 1 required positional argument: params"

/-- `HaloCatalog.attrcut_subset` (lines 362-418): keep halos with
`minval < attr <= maxval`.  The Python callable binds its arguments before
executing the body, so a call site that omits the required `params` argument
raises a `TypeError` with the catalog untouched: the embedding takes
`params? : Option SimParams` and returns the error (carrying the unchanged
catalog) when it is absent.  The result of a successful call is the
post-call state of `self` paired with the Python return value
(`none` for in-place mode, the cut copy otherwise). -/
def attrcut_subset (cat : HaloCatalog) (attr : String) (minval maxval : ℚ)
    (params? : Option SimParams) (in_place : Bool) :
    Except (String × HaloCatalog) (HaloCatalog × Option HaloCatalog) :=
  match params? with
  | none => .error (attrcutTypeError, cat)
  | some _params =>
    let keep := cat.halos.filter
      (fun h => decide (minval < attrLookup attr h ∧ attrLookup attr h ≤ maxval))
    let cut : HaloCatalog := { halos := keep, nhalo := keep.length }
    if in_place then .ok (cut, none) else .ok (cat, some cut)

/-- `HaloCatalog.masscut_subset` (lines 421-428): delegates to
`attrcut_subset` on the mass attribute but omits the required `params`
argument in both the in-place and the copy branch. -/
def masscut_subset (cat : HaloCatalog) (min_mass max_mass : ℚ) (in_place : Bool) :
    Except (String × HaloCatalog) (HaloCatalog × Option HaloCatalog) :=
  attrcut_subset cat "M" min_mass max_mass none in_place

/-- `np.nanmax` of a list (over exact rationals there are no NaNs to skip;
numpy errors out on the empty array, here it is 0). -/
def nanmax (l : List ℚ) : ℚ :=
  l.foldl max (l.headD 0)

/-- The luminosity-threshold stage of `HaloCatalog.observation_cull`
(lines 281-284): `attrcut_subset` on `Lcat` with lower bound
`params.lcat_cutoff` and upper bound `np.nanmax(self.Lcat) + 10`
(this call does pass `params`). -/
def observation_lumcut (params : SimParams) (cat : HaloCatalog) : HaloCatalog :=
  match attrcut_subset cat "Lcat" params.lcat_cutoff
      (nanmax (cat.halos.map HaloRec.Lcat) + 10) (some params) true with
  | .ok (cut, _) => cut
  | .error _ => cat

/-- `HaloCatalog.observation_cull` (lines 255-311).  The seeded
`np.random.default_rng(params.vcat_seed).choice(nhalo, goal_nobj,
replace=False, p=weights)` draw is modelled by the deterministic oracle
`choice : seed -> n -> k -> weights -> index list`, and `np.log10` (used only
to build the `"log"` weights handed to that oracle) by the abstract `log10`.
An `obs_weight` value other than `"linear"` or `"log"` leaves the Python
local `weights` unbound, raising a `NameError`: embedded as `none`.
Both the in-place and the copy mode compute the same cut catalog, which is
what the embedding returns. -/
def observation_cull (choice : ℕ → ℕ → ℕ → List ℚ → List ℕ) (log10 : ℚ → ℚ)
    (params : SimParams) (cat : HaloCatalog) : Option HaloCatalog :=
  let cut := observation_lumcut params cat
  if params.goal_nobj > 0 then
    let weights? : Option (List ℚ) :=
      if params.obs_weight = "linear" then
        some (cut.halos.map (fun h => h.Lcat / (cut.halos.map HaloRec.Lcat).sum))
      else if params.obs_weight = "log" then
        some (cut.halos.map
          (fun h => log10 h.Lcat / (cut.halos.map (fun g => log10 g.Lcat)).sum))
      else none
    match weights? with
    | none => none
    | some weights =>
      some (indexcut (choice params.vcat_seed cut.nhalo params.goal_nobj weights) cut)
  else some cut

/-! ### `halos_to_luminosity.py`: halo catalog view and context record -/

/-- The halo catalog as consumed by the vectorised luminosity models:
parallel per-halo arrays over the reals, the lazily attached derived fields,
and the attached cosmology, abstracted to its comoving-volume function
`z -> comoving_volume(z)` (an external astropy collaborator). -/
structure Halos where
  M : List ℝ
  redshift : List ℝ
  sfr : Option (List ℝ)
  Lco : List ℝ
  Lcat : List ℝ
  catalog_coeffs : Option (List ℝ)
  cov : Option (List (List ℝ))
  cosmo : ℝ → ℝ

/-- The heterogeneous `co_model_coeffs` configuration value: Python `None`,
a tuple of floats, a bare callable (for the `arbitrary` model), or the
`arbitrary` model's `(callable, sfr_calc, sigma_sfr?, bad_extrapolation?)`
tuple. -/
inductive CoCoeffs where
  | cnone : CoCoeffs
  | ctuple (cs : List ℝ) : CoCoeffs
  | cfun (f : Halos → List ℝ) : CoCoeffs
  | cfunTuple (f : Halos → List ℝ) (sfr_calc : Bool)
      (sigma_sfr : Option ℝ) (bad_extrapolation : Option Bool) : CoCoeffs

/-- The `SimParameters` fields consumed by the luminosity stage.  A Python
`None` in `catalog_coeffs` is `Option.none`. -/
structure LumParams where
  model : String
  co_model_coeffs : CoCoeffs
  catalog_model : String
  catalog_coeffs : Option (List ℝ)
  codex : ℝ
  catdex : ℝ
  rho : ℝ
  lum_uncert_seed : ℤ
  z_i : ℝ
  z_f : ℝ
  fov_x : ℝ
  fov_y : ℝ

/-- The external numerical collaborators, abstracted as deterministic
oracles: the (optionally extrapolated) Behroozi SFR interpolant
`tab(bad_extrapolation, log10 M, log10 (z+1))` of `get_sfr_table` (built
from a data file outside the two core sources), the seeded
`np.random.lognormal` stream `(seed, mu, sigma, index) -> draw`, and the
seeded `np.random.Generator.multivariate_normal` stream
`(seed, mean, cov, index) -> (draw_co, draw_tracer)`. -/
structure Ctx where
  sfrTab : Bool → ℝ → ℝ → ℝ
  rngLognormal : ℤ → ℝ → ℝ → ℕ → ℝ
  rngBivariate : ℤ → List ℝ → List (List ℝ) → ℕ → ℝ × ℝ

/-- The `dex` argument of `add_log_normal_scatter`: a scalar in most call
sites, a per-halo array in the `Yang` model (numpy broadcasts either). -/
inductive Dex where
  | s (x : ℝ)
  | a (xs : List ℝ)

/-- Broadcast lookup of the `dex` argument at element `i`. -/
def Dex.get : Dex → ℕ → ℝ
  | .s x, _ => x
  | .a xs, i => xs.getD i 0

/-- `np.any(dex <= 0)` for a scalar or array `dex`. -/
noncomputable def Dex.anyNonpos : Dex → Bool
  | .s x => decide (x ≤ 0)
  | .a xs => xs.any (fun d => decide (d ≤ 0))

/-- The log-space standard deviation computed by `add_log_normal_scatter`
(line 614): `sigma = dex * 2.302585` (the source comment notes
`ln(10) = 2.302585`). -/
def lognormal_sigma (dex : ℝ) : ℝ :=
  dex * 2.302585

/-- `add_log_normal_scatter(data, dex, seed)` (lines 605-623): identity for
`np.any(dex <= 0)`; otherwise one seeded log-normal multiplicative factor
per element with `sigma = dex * 2.302585` and `mu = -0.5 * sigma**2`, with
non-positive data entries left unscattered. -/
noncomputable def add_log_normal_scatter (rng : ℤ → ℝ → ℝ → ℕ → ℝ)
    (data : List ℝ) (dex : Dex) (seed : ℤ) : List ℝ :=
  if dex.anyNonpos then data
  else
    let randscaling := (List.range data.length).map (fun i =>
      let sigma := lognormal_sigma (dex.get i)
      let mu := -0.5 * sigma ^ 2
      rng (seed * 13579) mu sigma i)
    (data.zip randscaling).map (fun p => if p.1 > 0 then p.1 * p.2 else p.1)

/-- The log-space standard deviation computed by
`add_co_tracer_dependant_scatter` (lines 653 and 657):
`sigma = dex * 2.30285`. -/
def tracer_sigma (dex : ℝ) : ℝ :=
  dex * 2.30285

/-- `add_co_tracer_dependant_scatter(halos, rho, codex, catdex, seed)`
(lines 625-678): guarded no-op for a non-positive dex; otherwise builds the
2x2 covariance from the two log-space sigmas and `rho`, stores it on the
catalog, draws one bivariate-normal sample per halo from the seeded
generator, exponentiates each marginal with its mean offset, and multiplies
the factors into `Lco` and `Lcat`. -/
noncomputable def add_co_tracer_dependant_scatter (ctx : Ctx) (halos : Halos)
    (rho codex catdex : ℝ) (seed : ℤ) : Halos :=
  if codex ≤ 0 ∨ catdex ≤ 0 then halos
  else
    let sigmaco := tracer_sigma codex
    let muco := -0.5 * sigmaco ^ 2
    let sigmatr := tracer_sigma catdex
    let mutr := -0.5 * sigmatr ^ 2
    let mean : List ℝ := [0, 0]
    let cov : List (List ℝ) :=
      [[sigmaco ^ 2, sigmaco * sigmatr * rho],
       [sigmaco * sigmatr * rho, sigmatr ^ 2]]
    let draws := (List.range halos.Lco.length).map (ctx.rngBivariate seed mean cov)
    let logscaleco := draws.map (fun d => Real.exp (d.1 + muco))
    let logscaletr := draws.map (fun d => Real.exp (d.2 + mutr))
    { halos with cov := some cov,
                 Lco := List.zipWith (· * ·) halos.Lco logscaleco,
                 Lcat := List.zipWith (· * ·) halos.Lcat logscaletr }

/-- `Mhalo_to_sfr_Behroozi(halos, sigma_sfr, bad_extrapolation)`
(lines 298-305): evaluate the (cached, here abstracted) SFR interpolant at
`(log10 M, log10 (z+1))` and optionally scatter with seed 1. -/
noncomputable def Mhalo_to_sfr_Behroozi (ctx : Ctx) (halos : Halos)
    (sigma_sfr : ℝ) (bad_extrapolation : Bool) : List ℝ :=
  let sfr := List.zipWith
    (fun m z => ctx.sfrTab bad_extrapolation (Real.logb 10 m) (Real.logb 10 (z + 1)))
    halos.M halos.redshift
  if sigma_sfr > 0 then add_log_normal_scatter ctx.rngLognormal sfr (Dex.s sigma_sfr) 1
  else sfr

/-- A Python return value of a CO model: an array for every model, except
that `Yang` returns the scalar `0` when handed non-null coefficients. -/
inductive LcoVal where
  | arr (l : List ℝ)
  | scalar (x : ℝ)

/-- Body of the `Li` model (lines 116-143) once the coefficients are
resolved: cached SFR, infrared luminosity, power law, optional scatter with
the fixed internal seed 2. -/
noncomputable def Mhalo_to_Lco_Li_core (ctx : Ctx) (halos : Halos)
    (log_delta_mf alpha beta sigma_sfr sigma_lco scale : ℝ) (scatter : Bool) :
    Halos × LcoVal :=
  let delta_mf := (10 : ℝ) ^ log_delta_mf
  let halos :=
    match halos.sfr with
    | none => { halos with sfr := some (Mhalo_to_sfr_Behroozi ctx halos sigma_sfr false) }
    | some _ => halos
  let sfr := halos.sfr.getD []
  let lir := sfr.map (fun s => s * 1e10 / delta_mf)
  let alphainv := 1 / alpha
  let Lcop := lir.map (fun x => x ^ alphainv * (10 : ℝ) ^ (-beta * alphainv))
  let Lco := Lcop.map (fun x => 4.9e-5 * x * scale)
  let Lco :=
    if scatter then add_log_normal_scatter ctx.rngLognormal Lco (Dex.s sigma_lco) 2
    else Lco
  (halos, .arr Lco)

/-- `Mhalo_to_Lco_Li` (lines 116-143): literature defaults for `None`
coefficients, otherwise a 6-tuple unpack (any other shape raises). -/
noncomputable def Mhalo_to_Lco_Li (ctx : Ctx) (halos : Halos)
    (coeffs : CoCoeffs) (scatter : Bool) : Option (Halos × LcoVal) :=
  match coeffs with
  | .cnone => some (Mhalo_to_Lco_Li_core ctx halos 0.0 1.37 (-1.74) 0.3 0.3 1.0 scatter)
  | .ctuple [log_delta_mf, alpha, beta, sigma_sfr, sigma_lco, scale] =>
      some (Mhalo_to_Lco_Li_core ctx halos log_delta_mf alpha beta sigma_sfr
        sigma_lco scale scatter)
  | _ => none

/-- Body of the `Li_sc` model (lines 145-176): as `Li`, but the SFR is drawn
without scatter and a single post-hoc scatter acts on `Lco`. -/
noncomputable def Mhalo_to_Lco_Li_sigmasc_core (ctx : Ctx) (halos : Halos)
    (log_delta_mf alpha beta sigma_sc : ℝ) (scatter : Bool) : Halos × LcoVal :=
  let delta_mf := (10 : ℝ) ^ log_delta_mf
  let halos :=
    match halos.sfr with
    | none => { halos with sfr := some (Mhalo_to_sfr_Behroozi ctx halos 0 false) }
    | some _ => halos
  let sfr := halos.sfr.getD []
  let lir := sfr.map (fun s => s * 1e10 / delta_mf)
  let alphainv := 1 / alpha
  let Lcop := lir.map (fun x => x ^ alphainv * (10 : ℝ) ^ (-beta * alphainv))
  let Lco := Lcop.map (fun x => 4.9e-5 * x)
  let Lco :=
    if scatter then add_log_normal_scatter ctx.rngLognormal Lco (Dex.s sigma_sc) 2
    else Lco
  (halos, .arr Lco)

/-- `Mhalo_to_Lco_Li_sigmasc` (lines 145-176). -/
noncomputable def Mhalo_to_Lco_Li_sigmasc (ctx : Ctx) (halos : Halos)
    (coeffs : CoCoeffs) (scatter : Bool) : Option (Halos × LcoVal) :=
  match coeffs with
  | .cnone => some (Mhalo_to_Lco_Li_sigmasc_core ctx halos 0.0 1.37 (-1.74) 0.3 scatter)
  | .ctuple [log_delta_mf, alpha, beta, sigma_sc] =>
      some (Mhalo_to_Lco_Li_sigmasc_core ctx halos log_delta_mf alpha beta sigma_sc scatter)
  | _ => none

/-- Body of the `Padmanabhan` model (lines 178-202): redshift-dependent
double power law, deterministically rescaled by the duty fraction. -/
noncomputable def Mhalo_to_Lco_Padmanabhan_core (halos : Halos)
    (m10 m11 n10 n11 b10 b11 y10 y11 fduty : ℝ) : Halos × LcoVal :=
  let Lco := List.zipWith (fun z hm =>
    let m1 := (10 : ℝ) ^ (Real.logb 10 m10 + m11 * z / (z + 1))
    let n := n10 + n11 * z / (z + 1)
    let b := b10 + b11 * z / (z + 1)
    let y := y10 + y11 * z / (z + 1)
    let Lprime := 2 * n * hm / ((hm / m1) ^ (-b) + (hm / m1) ^ y)
    4.9e-5 * Lprime * fduty) halos.redshift halos.M
  (halos, .arr Lco)

/-- `Mhalo_to_Lco_Padmanabhan` (lines 178-202). -/
noncomputable def Mhalo_to_Lco_Padmanabhan (ctx : Ctx) (halos : Halos)
    (coeffs : CoCoeffs) (scatter : Bool) : Option (Halos × LcoVal) :=
  match coeffs with
  | .cnone => some (Mhalo_to_Lco_Padmanabhan_core halos 4.17e12 (-1.17) 0.0033 0.04
      0.95 0.48 0.66 (-0.33) 1)
  | .ctuple [m10, m11, n10, n11, b10, b11, y10, y11, fduty] =>
      some (Mhalo_to_Lco_Padmanabhan_core halos m10 m11 n10 n11 b10 b11 y10 y11 fduty)
  | _ => none

/-- Body of the `fiuducial` model (lines 204-225): mass-only double power
law with optional scatter with the fixed internal seed 3. -/
noncomputable def Mhalo_to_Lco_fiuducial_core (ctx : Ctx) (halos : Halos)
    (A B logC logM sigma : ℝ) (scatter : Bool) : Halos × LcoVal :=
  let C := (10 : ℝ) ^ logC
  let M := (10 : ℝ) ^ logM
  let Lco := halos.M.map (fun Mh => 4.9e-5 * (C / ((Mh / M) ^ A + (Mh / M) ^ B)))
  let Lco :=
    if scatter then add_log_normal_scatter ctx.rngLognormal Lco (Dex.s sigma) 3
    else Lco
  (halos, .arr Lco)

/-- `Mhalo_to_Lco_fiuducial` (lines 204-225): the UM+COLDz+COPSS defaults
for `None` coefficients, otherwise a `(A, B, logC, logM, sigma)` unpack. -/
noncomputable def Mhalo_to_Lco_fiuducial (ctx : Ctx) (halos : Halos)
    (coeffs : CoCoeffs) (scatter : Bool) : Option (Halos × LcoVal) :=
  match coeffs with
  | .cnone => some (Mhalo_to_Lco_fiuducial_core ctx halos (-2.85) (-0.42) 10.63 12.3
      0.42 scatter)
  | .ctuple [A, B, logC, logM, sigma] =>
      some (Mhalo_to_Lco_fiuducial_core ctx halos A B logC logM sigma scatter)
  | _ => none

/-- `Mhalo_to_Lco_Yang` (lines 227-267): non-null coefficients short-circuit
to the scalar 0; otherwise fully redshift-dependent double power law with
duty-fraction suppression and redshift-dependent (per-halo array) scatter
width, seed 4. -/
noncomputable def Mhalo_to_Lco_Yang (ctx : Ctx) (halos : Halos)
    (coeffs : CoCoeffs) (scatter : Bool) : Option (Halos × LcoVal) :=
  match coeffs with
  | .cnone =>
    let beta := 1.77 * Real.exp (-1 / 2.72) - 0.00827
    let Lco := List.zipWith (fun z Mh =>
      let logM1 := 12.13 - 0.1678 * z
      let logN := -6.855 + 0.2366 * z - 0.05013 * z ^ 2
      let alpha := 1.642 + 0.1663 * z - 0.03238 * z ^ 2
      let M1 := (10 : ℝ) ^ logM1
      let N := (10 : ℝ) ^ logN
      let L := 2 * N * Mh / ((Mh / M1) ^ (-alpha) + (Mh / M1) ^ (-beta))
      let logM2 := 11.73 + 0.6634 * z
      let gamma := 1.37 - 0.190 * z + 0.0215 * z ^ 2
      let M2 := (10 : ℝ) ^ logM2
      let fduty := 1 / (1 + (Mh / M2) ^ gamma)
      L * fduty) halos.redshift halos.M
    let sigmaco := halos.redshift.map (fun z => 0.357 - 0.0701 * z + 0.00621 * z ^ 2)
    let Lco :=
      if scatter then add_log_normal_scatter ctx.rngLognormal Lco (Dex.a sigmaco) 4
      else Lco
    some (halos, .arr Lco)
  | _ => some (halos, .scalar 0)

/-- `Mhalo_to_Lco_arbitrary` (lines 270-296): a bare callable implies
`sfr_calc = True` with the default `sigma_sfr = 0.3`; when `sfr_calc` is
set, `halos.sfr` is (re)computed unconditionally before the callable is
invoked on the mutated catalog.  A non-callable coefficient value raises at
the unpack or at the call. -/
noncomputable def Mhalo_to_Lco_arbitrary (ctx : Ctx) (halos : Halos)
    (coeffs : CoCoeffs) (scatter : Bool) : Option (Halos × LcoVal) :=
  match coeffs with
  | .cfun f =>
      let halos := { halos with sfr := some (Mhalo_to_sfr_Behroozi ctx halos 0.3 false) }
      some (halos, .arr (f halos))
  | .cfunTuple f sfr_calc sigma_sfr? bad_extrapolation? =>
      let sigma_sfr := sigma_sfr?.getD 0.3
      let bad_extrapolation := bad_extrapolation?.getD false
      let halos :=
        if sfr_calc then
          { halos with sfr := some (Mhalo_to_sfr_Behroozi ctx halos sigma_sfr bad_extrapolation) }
        else halos
      some (halos, .arr (f halos))
  | _ => none

/-- The type of an embedded CO model: catalog, coefficients and scatter flag
to the post-call catalog and the Python return value (`none` embeds a
Python runtime exception from a malformed coefficient value). -/
abbrev CoModel := Halos → CoCoeffs → Bool → Option (Halos × LcoVal)

/-- The model dictionary of `Mhalo_to_Lco` (lines 101-107). -/
noncomputable def LcoModelRegistry (ctx : Ctx) : List (String × CoModel) :=
  [("Li", Mhalo_to_Lco_Li ctx),
   ("Li_sc", Mhalo_to_Lco_Li_sigmasc ctx),
   ("Padmanabhan", Mhalo_to_Lco_Padmanabhan ctx),
   ("fiuducial", Mhalo_to_Lco_fiuducial ctx),
   ("Yang", Mhalo_to_Lco_Yang ctx),
   ("arbitrary", Mhalo_to_Lco_arbitrary ctx)]

/-- The `sys.exit` message of `Mhalo_to_Lco` (line 113). -/
def coErrMsg (m : String) : String :=
  "\n\n\tYour model, " ++ m ++ ", does not seem to exist\n\t\tPlease check src/halos_to_luminosity.py to add it\n\n"

/-- `Mhalo_to_Lco(halos, params, scatter)` (lines 85-113): dictionary
dispatch on `params.model`; an unknown key terminates fatally
(`Except.error` carrying the message and the untouched catalog). -/
noncomputable def Mhalo_to_Lco (ctx : Ctx) (halos : Halos) (params : LumParams)
    (scatter : Bool) : Except (String × Halos) (Option (Halos × LcoVal)) :=
  match (LcoModelRegistry ctx).lookup params.model with
  | some f => .ok (f halos params.co_model_coeffs scatter)
  | none => .error (coErrMsg params.model, halos)

/-! ### Catalog-tracer models -/

/-- `schechter(L, coeffs)` (lines 343-351); a coefficient list that is not a
5-element unpack raises in Python (unreachable for the shipped defaults). -/
noncomputable def schechter (L : ℝ) (coeffs : List ℝ) : ℝ :=
  match coeffs with
  | [Lstar, phistar, alpha, _, _] =>
      (phistar / Lstar) * (L / Lstar) ^ alpha * Real.exp (-L / Lstar)
  | _ => 0

/-- The comoving survey volume of `halomassfunction` (lines 364-367):
`(comoving_volume(z_f) - comoving_volume(z_i)) / (4 pi sr) * fov_x * fov_y
deg^2` converted to Mpc^3 (one square degree is `(pi/180)^2` sr). -/
noncomputable def simVolume (halos : Halos) (params : LumParams) : ℝ :=
  (halos.cosmo params.z_f - halos.cosmo params.z_i) / (4 * Real.pi)
    * (params.fov_x * params.fov_y * (Real.pi / 180) ^ 2)

/-- `halomassfunction(halos, params)` (lines 353-381): histogram the log
masses into 500 bins, divide by the survey volume, and reverse-cumulate to
the cumulative halo mass function on the bin centers. -/
noncomputable def halomassfunction (halos : Halos) (params : LumParams) :
    List ℝ × List ℝ :=
  let logM := halos.M.map (Real.logb 10)
  let logMprime := linspace (listMin logM) (listMax logM) 501
  let N := histCounts logM logMprime
  let dlogMprime := diffs logMprime
  let logMprimecents := binCenters logMprime
  let vol := simVolume halos params
  let dndlogM := N.map (fun n : ℕ => (n : ℝ) / vol)
  let dndlogMdlogM := List.zipWith (· * ·) dndlogM dlogMprime
  let intnM := suffixSums dndlogMdlogM
  (logMprimecents, intnM)

/-- `abundancematch(function, coeffs, halos, params)` (lines 383-432):
build the cumulative luminosity function on a 101-edge log grid over
`[coeffs[-2], coeffs[-1]]`, build the cumulative halo mass function,
interpolate each halo's cumulative number density at its log mass, invert
the cumulative luminosity function on its reversed (increasing) axis, and
convert erg/s to solar luminosities.  Returns the catalog (with `Lcat`
written) and the Python `(halos.Lcat, params)` return value. -/
noncomputable def abundancematch (fn : ℝ → List ℝ → ℝ) (coeffs : List ℝ)
    (halos : Halos) (params : LumParams) : Halos × (List ℝ × LumParams) :=
  let logLprime := (logspace (coeffs.getD (coeffs.length - 2) 0)
    (coeffs.getD (coeffs.length - 1) 0) 101).map (Real.logb 10)
  let dLprime := diffs (logLprime.map (fun x => (10 : ℝ) ^ x))
  let logLprimecents := binCenters logLprime
  let phiLarr := logLprimecents.map (fun l => fn ((10 : ℝ) ^ l) coeffs)
  let phiLdL := List.zipWith (· * ·) phiLarr dLprime
  let intL := suffixSums phiLdL
  let hmf := halomassfunction halos params
  let intMforM := halos.M.map (fun m => npinterp (Real.logb 10 m) hmf.1 hmf.2)
  let LforintM := intMforM.map (fun v => npinterp v intL.reverse logLprimecents.reverse)
  let Lcat := LforintM.map (fun x => (10 : ℝ) ^ x / 3.826e33)
  ({ halos with Lcat := Lcat }, (Lcat, params))

/-- A Python return value of a catalog model: the `(Lcat, params)` pair
every caller unpacks, or a bare `Lcat` array. -/
inductive PyRet where
  | tuple2 (Lcat : List ℝ) (params : LumParams)
  | single (Lcat : List ℝ)

/-- `Mhalo_to_LLya_Chung` (lines 469-507): SFR-and-redshift dependent
escape-fraction model; always computes the SFR with `sigma_sfr = 0.3` when
it is not cached; NaN zeroing is a floating-point artifact with no
real-arithmetic counterpart (identity over ℝ); writes the placeholder
`params.catdex = 0.3`. -/
noncomputable def Mhalo_to_LLya_Chung (ctx : Ctx) (halos : Halos)
    (params : LumParams) : Option (Halos × LumParams × PyRet) :=
  let sigma_sfr : ℝ := 0.3
  let halos :=
    match halos.sfr with
    | none => { halos with sfr := some (Mhalo_to_sfr_Behroozi ctx halos sigma_sfr false) }
    | some _ => halos
  let z := halos.redshift
  let sfr := halos.sfr.getD []
  let fesc := List.zipWith (fun zi si =>
    (1 + Real.exp (-1.6 * zi + 5)) ^ (-0.5 : ℝ)
      * (0.18 + 0.82 / (1 + 0.8 * si ^ (0.875 : ℝ))) ^ 2) z sfr
  let Llya := List.zipWith (fun si fi => 1.6e42 * si * fi) sfr fesc
  let Llya := Llya.map (fun x => x / 3.826e33)
  let params := { params with catdex := sigma_sfr }
  some (halos, params, .tuple2 Llya params)

/-- `Mhalo_to_Lcatalog_schechter` (lines 509-519): fill in the Ouchi et al.
default coefficients when the configured value is falsy (`None` or an empty
list), then delegate to the abundance matcher. -/
noncomputable def Mhalo_to_Lcatalog_schechter (halos : Halos) (params : LumParams) :
    Option (Halos × LumParams × PyRet) :=
  let params :=
    if params.catalog_coeffs.getD [] = [] then
      { params with catalog_coeffs := some [0.849e43, 3.9e-4, -1.8, 39, 45] }
    else params
  let r := abundancematch schechter (params.catalog_coeffs.getD []) halos params
  some (r.1, r.2.2, .tuple2 r.2.1 r.2.2)

/-- `Mhalo_to_Lcatalog_schechter_amp` (lines 521-535): as `schechter` but
the leading coefficient is a multiplicative amplitude.  The Python in-place
`Llya *= c` scales the same ndarray stored as `halos.Lcat`, so the catalog
field is scaled as well. -/
noncomputable def Mhalo_to_Lcatalog_schechter_amp (halos : Halos) (params : LumParams) :
    Option (Halos × LumParams × PyRet) :=
  let params :=
    if params.catalog_coeffs.getD [] = [] then
      { params with catalog_coeffs := some [1, 0.849e43, 3.9e-4, -1.8, 39, 45] }
    else params
  let cs := params.catalog_coeffs.getD []
  let r := abundancematch schechter cs.tail halos params
  let amp := cs.headD 0
  let Llya := r.2.1.map (fun x => x * amp)
  some ({ r.1 with Lcat := Llya }, r.2.2, .tuple2 Llya r.2.2)

/-- `Mhalo_to_Lcatalog_test1` (`'default'`, lines 538-569): double power law
in mass; records the resolved coefficients on the catalog and `catdex` on
the parameter record; returns the `(Lcatalog, params)` pair. -/
noncomputable def Mhalo_to_Lcatalog_test1 (halos : Halos) (params : LumParams) :
    Option (Halos × LumParams × PyRet) :=
  match params.catalog_coeffs with
  | none =>
    let halos := { halos with catalog_coeffs := some [-2, -0.5, 11, 13, 0.5] }
    let C := (10 : ℝ) ^ (11 : ℝ)
    let M := (10 : ℝ) ^ (13 : ℝ)
    let Lcatalog := halos.M.map
      (fun Mh => 4.9e-5 * (C / ((Mh / M) ^ (-2 : ℝ) + (Mh / M) ^ (-0.5 : ℝ))))
    let params := { params with catdex := 0.5 }
    some (halos, params, .tuple2 Lcatalog params)
  | some cs =>
    match cs with
    | [A, B, logC, logM, sigma] =>
      let halos := { halos with catalog_coeffs := some cs }
      let C := (10 : ℝ) ^ logC
      let M := (10 : ℝ) ^ logM
      let Lcatalog := halos.M.map
        (fun Mh => 4.9e-5 * (C / ((Mh / M) ^ A + (Mh / M) ^ B)))
      let params := { params with catdex := sigma }
      some (halos, params, .tuple2 Lcatalog params)
    | _ => none

/-- `Mhalo_to_Lcatalog_test2` (lines 571-602): identical in structure to
`test1` up to the default coefficient values, but its final statement is
`return Lcatalog` — the bare array, with no accompanying parameter record. -/
noncomputable def Mhalo_to_Lcatalog_test2 (halos : Halos) (params : LumParams) :
    Option (Halos × LumParams × PyRet) :=
  match params.catalog_coeffs with
  | none =>
    let halos := { halos with catalog_coeffs := some [0.5, 2, 11, 12, 0.5] }
    let C := (10 : ℝ) ^ (11 : ℝ)
    let M := (10 : ℝ) ^ (12 : ℝ)
    let Lcatalog := halos.M.map
      (fun Mh => 4.9e-5 * (C / ((Mh / M) ^ (0.5 : ℝ) + (Mh / M) ^ (2 : ℝ))))
    let params := { params with catdex := 0.5 }
    some (halos, params, .single Lcatalog)
  | some cs =>
    match cs with
    | [A, B, logC, logM, sigma] =>
      let halos := { halos with catalog_coeffs := some cs }
      let C := (10 : ℝ) ^ logC
      let M := (10 : ℝ) ^ logM
      let Lcatalog := halos.M.map
        (fun Mh => 4.9e-5 * (C / ((Mh / M) ^ A + (Mh / M) ^ B)))
      let params := { params with catdex := sigma }
      some (halos, params, .single Lcatalog)
    | _ => none

/-- The type of an embedded catalog model. -/
abbrev CatModel := Halos → LumParams → Option (Halos × LumParams × PyRet)

/-- The model dictionary of `Mhalo_to_Lcatalog` (lines 456-461). -/
noncomputable def LcatModelRegistry (ctx : Ctx) : List (String × CatModel) :=
  [("lya_chung", Mhalo_to_LLya_Chung ctx),
   ("schechter", fun h p => Mhalo_to_Lcatalog_schechter h p),
   ("schechter_amp", fun h p => Mhalo_to_Lcatalog_schechter_amp h p),
   ("default", fun h p => Mhalo_to_Lcatalog_test1 h p),
   ("test2", fun h p => Mhalo_to_Lcatalog_test2 h p)]

/-- The `sys.exit` message of `Mhalo_to_Lcatalog` (line 467). -/
def catErrMsg (m : String) : String :=
  "\n\n\tYour catalog model, " ++ m ++ ", does not seem to exist\n\t\tPlease check src/halos_to_luminosity.py to add it\n\n"

/-- `Mhalo_to_Lcatalog(halos, params)` (lines 437-467): dictionary dispatch
on `params.catalog_model`; an unknown key terminates fatally. -/
noncomputable def Mhalo_to_Lcatalog (ctx : Ctx) (halos : Halos)
    (params : LumParams) : Except (String × Halos) (Option (Halos × LumParams × PyRet)) :=
  match (LcatModelRegistry ctx).lookup params.catalog_model with
  | some f => .ok (f halos params)
  | none => .error (catErrMsg params.catalog_model, halos)

/-! ### Concrete fixtures used by the closed instance theorems -/

/-- A trivial oracle context for concrete evaluations. -/
noncomputable def ctx0 : Ctx :=
  { sfrTab := fun _ _ _ => 0
    rngLognormal := fun _ _ _ _ => 1
    rngBivariate := fun _ _ _ _ => (0, 0) }

/-- An empty luminosity-stage catalog. -/
noncomputable def halos0 : Halos :=
  { M := [], redshift := [], sfr := none, Lco := [], Lcat := []
    catalog_coeffs := none, cov := none, cosmo := fun z => z }

/-- A baseline parameter record for the luminosity stage. -/
noncomputable def lumParams0 : LumParams :=
  { model := "Li", co_model_coeffs := .cnone, catalog_model := "lya_chung"
    catalog_coeffs := none, codex := 0.42, catdex := 0.3, rho := 0.8
    lum_uncert_seed := 12345, z_i := 0, z_f := 1, fov_x := 1, fov_y := 1 }

/-- A parameter record with unknown model keys for both registries. -/
noncomputable def lumParamsBad : LumParams :=
  { lumParams0 with model := "nomodel", catalog_model := "nocat" }

/-- A one-halo catalog with an already cached `sfr` array. -/
noncomputable def halosSfr5 : Halos :=
  { halos0 with M := [1], redshift := [1], sfr := some [5] }

/-- A two-halo catalog with distinct positive masses. -/
noncomputable def halosC6 : Halos :=
  { halos0 with M := [1, 2], redshift := [1, 1] }

/-- A constant (hence trivially nonnegative) luminosity-function shape. -/
noncomputable def fn0 : ℝ → List ℝ → ℝ := fun _ _ => 0

/-- A halo whose mass violates the lower mass bound of `simParams0`. -/
def haloBad : HaloRec :=
  { M := 5, redshift := 3, ra := 0, dec := 0, Lco := 0, Lcat := 0 }

/-- A one-halo rational catalog. -/
def qcat1 : HaloCatalog :=
  { halos := [haloBad], nhalo := 1 }

/-- A baseline parameter record for the structural catalog operations. -/
def simParams0 : SimParams :=
  { nu_rest := 115, nu_i := 30, nu_f := 27, z_i := 0, z_f := 0, min_mass := 10
    mass_cutoff := 100, fov_x := 4, fov_y := 4, lcat_cutoff := 1, goal_nobj := 1
    vcat_seed := 0, obs_weight := "linear", verbose := false }

/-- Two distinct halos above the luminosity threshold of `simParams0`. -/
def qrecA : HaloRec :=
  { M := 20, redshift := 3, ra := 0, dec := 0, Lco := 0, Lcat := 5 }

/-- See `qrecA`. -/
def qrecB : HaloRec :=
  { M := 30, redshift := 3, ra := 0, dec := 0, Lco := 0, Lcat := 7 }

/-- A two-halo rational catalog. -/
def qcat2 : HaloCatalog :=
  { halos := [qrecA, qrecB], nhalo := 2 }

/-- A concrete deterministic choice oracle satisfying the numpy
`Generator.choice(n, k, replace=False)` contract. -/
def choice0 : ℕ → ℕ → ℕ → List ℚ → List ℕ := fun _ _ k _ => List.range k

/-- A concrete stand-in for `np.log10` on rationals. -/
def log10q0 : ℚ → ℚ := fun _ => 0

/-! ### General lemmas about the embedded numpy helpers -/

theorem lookup_eq_none_of_not_mem_keys {β : Type _} (l : List (String × β)) (k : String)
    (h : k ∉ l.map Prod.fst) : l.lookup k = none := by
  induction l with
  | nil => rfl
  | cons p t ih =>
    simp only [List.map_cons, List.mem_cons, not_or] at h
    have hk : (k == p.1) = false := beq_eq_false_iff_ne.mpr h.1
    obtain ⟨a, b⟩ := p
    simp only [List.lookup_cons, hk]
    exact ih h.2

theorem foldl_min_le (x : ℝ) (xs : List ℝ) : xs.foldl min x ≤ x := by
  induction xs generalizing x with
  | nil => exact le_refl x
  | cons y t ih =>
    rw [List.foldl_cons]
    exact le_trans (ih (min x y)) (min_le_left x y)

theorem le_foldl_max (x : ℝ) (xs : List ℝ) : x ≤ xs.foldl max x := by
  induction xs generalizing x with
  | nil => exact le_refl x
  | cons y t ih =>
    rw [List.foldl_cons]
    exact le_trans (le_max_left x y) (ih (max x y))

theorem listMin_le_listMax (l : List ℝ) : listMin l ≤ listMax l := by
  cases l with
  | nil => exact le_refl 0
  | cons x xs => exact le_trans (foldl_min_le x xs) (le_foldl_max x xs)

theorem chain'_le_linspace (a b : ℝ) (n : ℕ) (hab : a ≤ b) :
    List.Chain' (· ≤ ·) (linspace a b n) := by
  unfold linspace
  simp only [List.chain'_map]
  cases n with
  | zero => simp
  | succ m =>
    rw [List.chain'_range_succ]
    intro k _
    have hs : (0 : ℝ) ≤ (b - a) / ((((m + 1 : ℕ) : ℝ)) - 1) := by
      apply div_nonneg (by linarith)
      push_cast
      linarith [(Nat.cast_nonneg m : (0 : ℝ) ≤ (m : ℕ))]
    have hk1 : (k : ℝ) ≤ (k : ℝ) + 1 := by linarith
    have h2 := mul_le_mul_of_nonneg_right hk1 hs
    push_cast
    push_cast at h2 hs
    nlinarith [h2]

theorem diffs_nonneg : ∀ {l : List ℝ}, List.Chain' (· ≤ ·) l → ∀ d ∈ diffs l, 0 ≤ d
  | [], _, d, hd => by simp [diffs] at hd
  | [_], _, d, hd => by simp [diffs] at hd
  | x :: y :: t, h, d, hd => by
    obtain ⟨hxy, ht⟩ := List.chain'_cons.mp h
    rw [show diffs (x :: y :: t) = (y - x) :: diffs (y :: t) from rfl] at hd
    rcases List.mem_cons.mp hd with h1 | h2
    · subst h1; linarith
    · exact diffs_nonneg ht d h2

theorem binCenters_chain : ∀ {l : List ℝ}, List.Chain' (· ≤ ·) l →
    List.Chain' (· ≤ ·) (binCenters l)
  | [], _ => by simp [binCenters, diffs]
  | [_], _ => by simp [binCenters, diffs]
  | x :: y :: t, h => by
    obtain ⟨hxy, ht⟩ := List.chain'_cons.mp h
    rw [show binCenters (x :: y :: t) = (x + (y - x) / 2) :: binCenters (y :: t) from rfl]
    rw [List.chain'_cons']
    refine ⟨?_, binCenters_chain ht⟩
    intro c hc
    cases t with
    | nil => simp [binCenters, diffs] at hc
    | cons z u =>
      rw [show binCenters (y :: z :: u) = (y + (z - y) / 2) :: binCenters (z :: u) from rfl] at hc
      simp only [List.head?_cons, Option.mem_def, Option.some_inj] at hc
      obtain ⟨hyz, _⟩ := List.chain'_cons.mp ht
      subst hc
      linarith

theorem suffixSums_chain : ∀ {l : List ℝ}, (∀ x ∈ l, 0 ≤ x) →
    List.Chain' (· ≥ ·) (suffixSums l)
  | [], _ => by simp [suffixSums]
  | x :: xs, h => by
    rw [show suffixSums (x :: xs) = (x + xs.sum) :: suffixSums xs from rfl]
    rw [List.chain'_cons']
    refine ⟨?_, suffixSums_chain (fun y hy => h y (List.mem_cons_of_mem x hy))⟩
    intro c hc
    cases xs with
    | nil => simp [suffixSums] at hc
    | cons z u =>
      rw [show suffixSums (z :: u) = (z + u.sum) :: suffixSums u from rfl] at hc
      simp only [List.head?_cons, Option.mem_def, Option.some_inj] at hc
      have hx : 0 ≤ x := h x (List.mem_cons_self x _)
      subst hc
      simp only [ge_iff_le, List.sum_cons]
      linarith

theorem chain'_zip {α β : Type _} {r : α → α → Prop} {s : β → β → Prop} :
    ∀ {l : List α} {m : List β}, List.Chain' r l → List.Chain' s m →
      List.Chain' (fun p q => r p.1 q.1 ∧ s p.2 q.2) (l.zip m)
  | [], _, _, _ => by simp
  | _ :: _, [], _, _ => by simp
  | [x], y :: ys, _, _ => by simp [List.zip]
  | x1 :: x2 :: xs, [y], _, _ => by simp [List.zip]
  | x1 :: x2 :: xs, y1 :: y2 :: ys, hl, hm => by
    obtain ⟨hx, hl'⟩ := List.chain'_cons.mp hl
    obtain ⟨hy, hm'⟩ := List.chain'_cons.mp hm
    rw [show (x1 :: x2 :: xs).zip (y1 :: y2 :: ys)
      = (x1, y1) :: (x2, y2) :: (xs.zip ys) from rfl]
    rw [List.chain'_cons]
    exact ⟨⟨hx, hy⟩, chain'_zip hl' hm'⟩

theorem zipWith_mul_nonneg : ∀ {l m : List ℝ}, (∀ a ∈ l, 0 ≤ a) → (∀ b ∈ m, 0 ≤ b) →
    ∀ x ∈ List.zipWith (· * ·) l m, 0 ≤ x
  | [], _, _, _, x, hx => by simp at hx
  | _ :: _, [], _, _, x, hx => by simp at hx
  | a :: l, b :: m, hl, hm, x, hx => by
    rw [List.zipWith_cons_cons] at hx
    rcases List.mem_cons.mp hx with h1 | h2
    · subst h1
      exact mul_nonneg (hl a (List.mem_cons_self a _)) (hm b (List.mem_cons_self b _))
    · exact zipWith_mul_nonneg (fun y hy => hl y (List.mem_cons_of_mem a hy))
        (fun y hy => hm y (List.mem_cons_of_mem b hy)) x h2

theorem log10_logspace (a b : ℝ) (n : ℕ) :
    (logspace a b n).map (Real.logb 10) = linspace a b n := by
  rw [logspace, List.map_map]
  have : ∀ x ∈ linspace a b n, (Real.logb 10 ∘ fun x => (10 : ℝ) ^ x) x = id x := by
    intro x _
    simp only [Function.comp_apply, id_eq]
    exact Real.logb_rpow (by norm_num) (by norm_num)
  rw [List.map_congr_left this, List.map_id]

theorem npInterpP_le_head : ∀ (z x1 f1 : ℝ) (rest : List (ℝ × ℝ)),
    List.Chain' (fun p q : ℝ × ℝ => p.1 ≤ q.1 ∧ q.2 ≤ p.2) ((x1, f1) :: rest) →
    npInterpP z ((x1, f1) :: rest) ≤ f1
  | _, _, _, [], _ => by rw [npInterpP]
  | z, x1, f1, (x2, f2) :: t, hc => by
    obtain ⟨⟨h12, h21⟩, htl⟩ := List.chain'_cons.mp hc
    rw [npInterpP]
    split
    · exact le_refl f1
    · split
      · rename_i hz1 hz2
        have hnum : (f2 - f1) * (z - x1) ≤ 0 :=
          mul_nonpos_iff.mpr (Or.inr ⟨by linarith, by linarith [not_le.mp hz1]⟩)
        have hq : (f2 - f1) * (z - x1) / (x2 - x1) ≤ 0 :=
          div_nonpos_iff.mpr (Or.inr ⟨hnum, by linarith⟩)
        linarith
      · exact le_trans (npInterpP_le_head z x2 f2 t htl) h21

theorem npInterpP_antitone : ∀ (ps : List (ℝ × ℝ)),
    List.Chain' (fun p q : ℝ × ℝ => p.1 ≤ q.1 ∧ q.2 ≤ p.2) ps →
    ∀ x y : ℝ, x ≤ y → npInterpP y ps ≤ npInterpP x ps
  | [], _, x, y, _ => by rw [npInterpP, npInterpP]
  | [(a, f)], _, x, y, _ => by rw [npInterpP, npInterpP]
  | (x1, f1) :: (x2, f2) :: t, hc, x, y, hxy => by
    obtain ⟨⟨h12, h21⟩, htl⟩ := List.chain'_cons.mp hc
    rw [npInterpP, npInterpP]
    by_cases hy1 : y ≤ x1
    · rw [if_pos hy1, if_pos (le_trans hxy hy1)]
    · rw [if_neg hy1]
      have hx1y : x1 < y := not_le.mp hy1
      by_cases hx1 : x ≤ x1
      · rw [if_pos hx1]
        by_cases hy2 : y ≤ x2
        · rw [if_pos hy2]
          have hnum : (f2 - f1) * (y - x1) ≤ 0 :=
            mul_nonpos_iff.mpr (Or.inr ⟨by linarith, by linarith⟩)
          have hq : (f2 - f1) * (y - x1) / (x2 - x1) ≤ 0 :=
            div_nonpos_iff.mpr (Or.inr ⟨hnum, by linarith⟩)
          linarith
        · rw [if_neg hy2]
          exact le_trans (npInterpP_le_head y x2 f2 t htl) h21
      · rw [if_neg hx1]
        have hx1x : x1 < x := not_le.mp hx1
        by_cases hx2 : x ≤ x2
        · rw [if_pos hx2]
          have hx12 : x1 < x2 := lt_of_lt_of_le hx1x hx2
          by_cases hy2 : y ≤ x2
          · rw [if_pos hy2]
            have hmul : (f2 - f1) * (y - x1) ≤ (f2 - f1) * (x - x1) :=
              mul_le_mul_of_nonpos_left (by linarith) (by linarith)
            have hdiv : (f2 - f1) * (y - x1) / (x2 - x1) ≤ (f2 - f1) * (x - x1) / (x2 - x1) :=
              (div_le_div_iff_of_pos_right (by linarith : (0 : ℝ) < x2 - x1)).mpr hmul
            linarith
          · rw [if_neg hy2]
            have hub : npInterpP y ((x2, f2) :: t) ≤ f2 := npInterpP_le_head y x2 f2 t htl
            have ht0 : 0 ≤ (x - x1) / (x2 - x1) := div_nonneg (by linarith) (by linarith)
            have ht1 : (x - x1) / (x2 - x1) ≤ 1 := (div_le_one (by linarith)).mpr (by linarith)
            have hlb : f2 ≤ f1 + (f2 - f1) * (x - x1) / (x2 - x1) := by
              rw [mul_div_assoc]
              nlinarith [mul_nonneg (sub_nonneg.mpr h21) (sub_nonneg.mpr ht1)]
            exact le_trans hub hlb
        · rw [if_neg hx2]
          have hy2 : ¬ y ≤ x2 := by
            intro hcon
            exact hx2 (le_trans hxy hcon)
          rw [if_neg hy2]
          exact npInterpP_antitone ((x2, f2) :: t) htl x y hxy

theorem npinterp_antitone (xp fp : List ℝ) (hxp : List.Chain' (· ≤ ·) xp)
    (hfp : List.Chain' (· ≥ ·) fp) (x y : ℝ) (hxy : x ≤ y) :
    npinterp y xp fp ≤ npinterp x xp fp := by
  rw [npinterp, npinterp]
  exact npInterpP_antitone (xp.zip fp) (chain'_zip hxp hfp) x y hxy

/-! ### Claim theorems -/

/-- C10: for every halo catalog and every pair of mass bounds, in either
in-place or copy mode, `masscut_subset` hits the Python `TypeError` raised
by calling `attrcut_subset` without its required `params` argument, before
any mutation: the error carries the catalog unchanged. -/
theorem C10_masscut_subset_type_error (cat : HaloCatalog) (mn mx : ℚ) (ip : Bool) :
    masscut_subset cat mn mx ip = .error (attrcutTypeError, cat) :=
  rfl

/-- C7: for every input array, every seed and every scalar dex `d <= 0`,
`add_log_normal_scatter` returns its input unchanged (a guarded no-op, not
an error). -/
theorem C7_scatter_identity_nonpos_dex (rng : ℤ → ℝ → ℝ → ℕ → ℝ)
    (data : List ℝ) (d : ℝ) (seed : ℤ) (hd : d ≤ 0) :
    add_log_normal_scatter rng data (Dex.s d) seed = data := by
  rw [add_log_normal_scatter, if_pos]
  show Dex.anyNonpos (Dex.s d) = true
  rw [Dex.anyNonpos]
  exact decide_eq_true hd

/-- Witness for C7 at a concrete input. -/
theorem C7_scatter_identity_nonpos_dex_witness :
    (0 : ℝ) ≤ 0 ∧ add_log_normal_scatter ctx0.rngLognormal [1, 2] (Dex.s 0) 7 = [1, 2] :=
  ⟨le_refl 0, C7_scatter_identity_nonpos_dex ctx0.rngLognormal [1, 2] 0 7 (le_refl 0)⟩

/-- C4: the claim fails on the code.  The independent scatter
(`add_log_normal_scatter`) uses the log-space sigma `dex * 2.302585`
(`ln 10` truncated to six decimals), but the correlated bivariate scatter
(`add_co_tracer_dependant_scatter`) uses `dex * 2.30285` — a constant with a
dropped digit — so for the same dex the two sigmas differ (and hence so do
the mean offsets `-sigma^2/2`). -/
theorem C4_sigma_constants_differ :
    tracer_sigma 1 = 2.30285 ∧ lognormal_sigma 1 = 2.302585 ∧
      tracer_sigma 1 ≠ lognormal_sigma 1 := by
  refine ⟨by norm_num [tracer_sigma], by norm_num [lognormal_sigma], ?_⟩
  rw [tracer_sigma, lognormal_sigma]
  norm_num

/-- C1: an unknown CO-model key and an unknown catalog-model key both make
the dispatcher terminate fatally (`sys.exit`, embedded as `Except.error`)
with a message that contains the offending key, and the halo catalog is
returned unchanged inside the error (no mutation happened before the
check). -/
theorem C1_unknown_model_fatal (ctx : Ctx) (halos : Halos) (params : LumParams)
    (sc : Bool) :
    (params.model ∉ (LcoModelRegistry ctx).map Prod.fst →
      Mhalo_to_Lco ctx halos params sc = .error (coErrMsg params.model, halos) ∧
        ∃ pre post, coErrMsg params.model = pre ++ params.model ++ post) ∧
    (params.catalog_model ∉ (LcatModelRegistry ctx).map Prod.fst →
      Mhalo_to_Lcatalog ctx halos params = .error (catErrMsg params.catalog_model, halos) ∧
        ∃ pre post, catErrMsg params.catalog_model = pre ++ params.catalog_model ++ post) := by
  constructor
  · intro h
    refine ⟨?_, "\n\n\tYour model, ",
      ", does not seem to exist\n\t\tPlease check src/halos_to_luminosity.py to add it\n\n",
      rfl⟩
    rw [Mhalo_to_Lco, lookup_eq_none_of_not_mem_keys _ _ h]
  · intro h
    refine ⟨?_, "\n\n\tYour catalog model, ",
      ", does not seem to exist\n\t\tPlease check src/halos_to_luminosity.py to add it\n\n",
      rfl⟩
    rw [Mhalo_to_Lcatalog, lookup_eq_none_of_not_mem_keys _ _ h]

/-- Witness for C1 at concrete unknown keys. -/
theorem C1_unknown_model_fatal_witness :
    Mhalo_to_Lco ctx0 halos0 lumParamsBad false = .error (coErrMsg "nomodel", halos0) ∧
      Mhalo_to_Lcatalog ctx0 halos0 lumParamsBad = .error (catErrMsg "nocat", halos0) := by
  have h := C1_unknown_model_fatal ctx0 halos0 lumParamsBad false
  exact ⟨(h.1 (by decide)).1, (h.2 (by decide)).1⟩

/-- C2 counterexample: the CO registry key is spelled `fiuducial` in the
code, so configuring the model name `fiducial` (as the claim states) hits
the unknown-model fatal branch instead of dispatching. -/
theorem C2_fiducial_counterexample :
    Mhalo_to_Lco ctx0 halos0 { lumParams0 with model := "fiducial" } false
      = .error (coErrMsg "fiducial", halos0) := by
  rw [Mhalo_to_Lco, lookup_eq_none_of_not_mem_keys _ _ (by decide)]

/-- C2 amended: configuring the CO model name `fiuducial` (the key actually
registered by the code) dispatches to the double-power-law mass model
`Mhalo_to_Lco_fiuducial` with the configured coefficients, rather than
hitting the unknown-model fatal branch. -/
theorem C2_fiuducial_dispatch (ctx : Ctx) (halos : Halos) (params : LumParams)
    (sc : Bool) (h : params.model = "fiuducial") :
    Mhalo_to_Lco ctx halos params sc
      = .ok (Mhalo_to_Lco_fiuducial ctx halos params.co_model_coeffs sc) := by
  rw [Mhalo_to_Lco, h]
  rfl

/-- Witness for C2 at a concrete parameter record. -/
theorem C2_fiuducial_dispatch_witness :
    Mhalo_to_Lco ctx0 halos0 { lumParams0 with model := "fiuducial" } false
      = .ok (Mhalo_to_Lco_fiuducial ctx0 halos0 CoCoeffs.cnone false) :=
  C2_fiuducial_dispatch ctx0 halos0 { lumParams0 with model := "fiuducial" } false rfl

/-- C3: dispatching the registered catalog model `test2` returns the bare
`Lcat` array (`PyRet.single`), not the `(Lcat, params)` pair that the
pipeline unpacking `halos.Lcat, params = Mhalo_to_Lcatalog(halos, params)`
requires and that every other registered model returns. -/
theorem C3_test2_returns_bare_array :
    ∃ h p L, Mhalo_to_Lcatalog ctx0 halos0 { lumParams0 with catalog_model := "test2" }
      = .ok (some (h, p, PyRet.single L)) :=
  ⟨_, _, _, rfl⟩

theorem Li_core_preserves_sfr (ctx : Ctx) (halos : Halos) (a b c d e f : ℝ)
    (sc : Bool) (s : List ℝ) (hs : halos.sfr = some s) :
    (Mhalo_to_Lco_Li_core ctx halos a b c d e f sc).1.sfr = some s := by
  unfold Mhalo_to_Lco_Li_core
  rw [hs]
  exact hs

theorem Li_sigmasc_core_preserves_sfr (ctx : Ctx) (halos : Halos) (a b c d : ℝ)
    (sc : Bool) (s : List ℝ) (hs : halos.sfr = some s) :
    (Mhalo_to_Lco_Li_sigmasc_core ctx halos a b c d sc).1.sfr = some s := by
  unfold Mhalo_to_Lco_Li_sigmasc_core
  rw [hs]
  exact hs

/-- C8 amended: the SFR-using models that guard the computation with a
`hasattr` check — `Li`, `Li_sc` and `lya_chung` — reuse an already cached
`halos.sfr` and leave it unchanged.  (The `arbitrary` model with `sfr_calc`
set is the exception: see the counterexample.) -/
theorem C8_guarded_models_preserve_sfr (ctx : Ctx) (halos : Halos) (s : List ℝ)
    (hs : halos.sfr = some s) :
    (∀ coeffs sc r, Mhalo_to_Lco_Li ctx halos coeffs sc = some r → r.1.sfr = some s) ∧
    (∀ coeffs sc r, Mhalo_to_Lco_Li_sigmasc ctx halos coeffs sc = some r → r.1.sfr = some s) ∧
    (∀ params r, Mhalo_to_LLya_Chung ctx halos params = some r → r.1.sfr = some s) := by
  refine ⟨?_, ?_, ?_⟩
  · intro coeffs sc r hr
    rcases coeffs with _ | cs | f | ⟨f, b, ss, be⟩
    · simp only [Mhalo_to_Lco_Li, Option.some.injEq] at hr
      subst hr
      exact Li_core_preserves_sfr ctx halos _ _ _ _ _ _ sc s hs
    · rcases cs with _ | ⟨a1, _ | ⟨a2, _ | ⟨a3, _ | ⟨a4, _ | ⟨a5, _ | ⟨a6, _ | ⟨a7, tl⟩⟩⟩⟩⟩⟩⟩ <;>
          simp only [Mhalo_to_Lco_Li, Option.some.injEq] at hr <;>
        first
          | (subst hr; exact Li_core_preserves_sfr ctx halos _ _ _ _ _ _ sc s hs)
          | exact Option.noConfusion hr
    · simp only [Mhalo_to_Lco_Li] at hr
      exact Option.noConfusion hr
    · simp only [Mhalo_to_Lco_Li] at hr
      exact Option.noConfusion hr
  · intro coeffs sc r hr
    rcases coeffs with _ | cs | f | ⟨f, b, ss, be⟩
    · simp only [Mhalo_to_Lco_Li_sigmasc, Option.some.injEq] at hr
      subst hr
      exact Li_sigmasc_core_preserves_sfr ctx halos _ _ _ _ sc s hs
    · rcases cs with _ | ⟨a1, _ | ⟨a2, _ | ⟨a3, _ | ⟨a4, _ | ⟨a5, tl⟩⟩⟩⟩⟩ <;>
          simp only [Mhalo_to_Lco_Li_sigmasc, Option.some.injEq] at hr <;>
        first
          | (subst hr; exact Li_sigmasc_core_preserves_sfr ctx halos _ _ _ _ sc s hs)
          | exact Option.noConfusion hr
    · simp only [Mhalo_to_Lco_Li_sigmasc] at hr
      exact Option.noConfusion hr
    · simp only [Mhalo_to_Lco_Li_sigmasc] at hr
      exact Option.noConfusion hr
  · intro params r hr
    rw [Mhalo_to_LLya_Chung, hs] at hr
    cases hr
    exact hs

/-- Witness for C8 at a concrete cached-SFR catalog. -/
theorem C8_guarded_models_preserve_sfr_witness :
    ∃ r, Mhalo_to_Lco_Li ctx0 halosSfr5 CoCoeffs.cnone false = some r ∧
      r.1.sfr = some [5] :=
  ⟨_, rfl, (C8_guarded_models_preserve_sfr ctx0 halosSfr5 [5] rfl).1
    CoCoeffs.cnone false _ rfl⟩

/-- C8 counterexample: the `arbitrary` model with `sfr_calc` set recomputes
and overwrites an already cached `halos.sfr` (lines 294-296 have no
`hasattr` guard), so the claim fails for it. -/
theorem C8_arbitrary_overwrites_sfr :
    ∃ r, Mhalo_to_Lco_arbitrary ctx0 halosSfr5 (CoCoeffs.cfun (fun h => h.Lco)) true
        = some r ∧ r.1.sfr ≠ halosSfr5.sfr := by
  refine ⟨_, rfl, ?_⟩
  show some (Mhalo_to_sfr_Behroozi ctx0 halosSfr5 0.3 false) ≠ halosSfr5.sfr
  have hsfr : Mhalo_to_sfr_Behroozi ctx0 halosSfr5 0.3 false = [0] := by
    rw [Mhalo_to_sfr_Behroozi]
    rw [if_pos (by norm_num : (0.3 : ℝ) > 0)]
    have hz : List.zipWith
        (fun m z => ctx0.sfrTab false (Real.logb 10 m) (Real.logb 10 (z + 1)))
        halosSfr5.M halosSfr5.redshift = [0] := by
      show List.zipWith _ [(1 : ℝ)] [(1 : ℝ)] = [0]
      simp [ctx0]
    rw [hz]
    have hcond : Dex.anyNonpos (Dex.s (0.3 : ℝ)) = false := by
      rw [Dex.anyNonpos]
      exact decide_eq_false (by norm_num)
    rw [add_log_normal_scatter, hcond]
    rw [show List.range ([0] : List ℝ).length = [0] from by decide]
    simp
  rw [hsfr]
  show some ([0] : List ℝ) ≠ some [5]
  simp

theorem massDesc_trans : ∀ a b c : HaloRec, massDesc a b = true → massDesc b c = true →
    massDesc a c = true := by
  intro a b c hab hbc
  simp only [massDesc, decide_eq_true_eq] at hab hbc ⊢
  exact le_trans hbc hab

theorem massDesc_total : ∀ a b : HaloRec, (massDesc a b || massDesc b a) = true := by
  intro a b
  rcases le_total a.M b.M with h | h <;> simp [massDesc, h]

/-- C5: after `cull(params)`, the retained masses are in non-increasing
order, every retained halo satisfies all of the keep conditions (mass
strictly inside the window, redshift inside the possibly bound-swapped
window, |ra| and |dec| within half a field of view), and every removed halo
violates at least one of them. -/
theorem C5_cull_spec (params : SimParams) (cat : HaloCatalog) :
    ((cull params cat).2.halos.map HaloRec.M).Sorted (· ≥ ·) ∧
    (∀ h ∈ (cull params cat).2.halos, cullKeep params h) ∧
    (∀ h ∈ cat.halos, h ∉ (cull params cat).2.halos → ¬ cullKeep params h) := by
  have hres : (cull params cat).2.halos
      = (cat.halos.filter (fun h => decide (cullKeep params h))).mergeSort massDesc := rfl
  have hperm := List.mergeSort_perm
    (cat.halos.filter (fun h => decide (cullKeep params h))) massDesc
  refine ⟨?_, ?_, ?_⟩
  · rw [hres]
    have hp := List.sorted_mergeSort massDesc_trans massDesc_total
      (cat.halos.filter (fun h => decide (cullKeep params h)))
    rw [List.Sorted, List.pairwise_map]
    refine hp.imp ?_
    intro a b hab
    simpa [massDesc, ge_iff_le] using hab
  · intro h hh
    rw [hres] at hh
    have hmem := List.mem_filter.mp (hperm.mem_iff.mp hh)
    exact of_decide_eq_true hmem.2
  · intro h hmem hnot hk
    apply hnot
    rw [hres]
    exact hperm.mem_iff.mpr (List.mem_filter.mpr ⟨hmem, decide_eq_true hk⟩)

unseal List.merge List.mergeSort in
/-- Witness for C5: a halo removed by a concrete cull violates the keep
predicate. -/
theorem C5_cull_spec_witness :
    haloBad ∈ qcat1.halos ∧ haloBad ∉ (cull simParams0 qcat1).2.halos ∧
      ¬ cullKeep simParams0 haloBad :=
  ⟨by decide, by decide,
    (C5_cull_spec simParams0 qcat1).2.2 haloBad (by decide) (by decide)⟩

theorem indexcut_halos (idx : List ℕ) (cat : HaloCatalog) :
    (indexcut idx cat).halos = idx.filterMap (fun i => cat.halos[i]?) :=
  rfl

theorem filterMap_getElem_length {α : Type _} (l : List α) :
    ∀ idx : List ℕ, (∀ i ∈ idx, i < l.length) →
      (idx.filterMap (fun i => l[i]?)).length = idx.length
  | [], _ => rfl
  | i :: t, hb => by
    have hi : i < l.length := hb i (List.mem_cons_self i t)
    rw [List.filterMap_cons_some (List.getElem?_eq_getElem hi)]
    rw [List.length_cons, List.length_cons,
      filterMap_getElem_length l t (fun j hj => hb j (List.mem_cons_of_mem i hj))]

theorem filterMap_getElem_nodup {α : Type _} (l : List α) (hl : l.Nodup) :
    ∀ idx : List ℕ, idx.Nodup → (∀ i ∈ idx, i < l.length) →
      (idx.filterMap (fun i => l[i]?)).Nodup
  | [], _, _ => List.nodup_nil
  | i :: t, hidx, hb => by
    have hi : i < l.length := hb i (List.mem_cons_self i t)
    rw [List.filterMap_cons_some (List.getElem?_eq_getElem hi)]
    rw [List.nodup_cons]
    obtain ⟨hit, ht⟩ := List.nodup_cons.mp hidx
    refine ⟨?_, filterMap_getElem_nodup l hl t ht
      (fun j hj => hb j (List.mem_cons_of_mem i hj))⟩
    intro hmem
    obtain ⟨j, hjt, hj⟩ := List.mem_filterMap.mp hmem
    have hjlen : j < l.length := hb j (List.mem_cons_of_mem i hjt)
    rw [List.getElem?_eq_getElem hjlen, Option.some_inj] at hj
    have hij : j = i := (List.Nodup.getElem_inj_iff hl).mp hj
    exact hit (hij ▸ hjt)

theorem filterMap_getElem_subset {α : Type _} (l : List α) (idx : List ℕ) :
    ∀ x ∈ idx.filterMap (fun i => l[i]?), x ∈ l := by
  intro x hx
  obtain ⟨j, _, hj⟩ := List.mem_filterMap.mp hx
  exact List.getElem?_mem hj

/-- C9: on a duplicate-free catalog, for either weighting mode and any
`goal_nobj = k` with `0 < k` at most the population surviving the luminosity
cut, `observation_cull` leaves exactly `k` distinct halos of the original
catalog, provided the seeded `choice` oracle honours the numpy
`Generator.choice(n, k, replace=False)` contract (k distinct indices below
n).  Moreover the result depends only on the four parameter fields the
method consumes — in particular two runs with the same seed and the same
input catalog produce the same result. -/
theorem C9_observation_cull_spec (choice : ℕ → ℕ → ℕ → List ℚ → List ℕ)
    (log10 : ℚ → ℚ) (params params2 : SimParams) (cat : HaloCatalog)
    (hnodup : cat.halos.Nodup)
    (hk : 0 < params.goal_nobj)
    (hw : params.obs_weight = "linear" ∨ params.obs_weight = "log")
    (hkn : params.goal_nobj ≤ (observation_lumcut params cat).halos.length)
    (hchoice : ∀ seed n k w, k ≤ n →
      (choice seed n k w).length = k ∧ (choice seed n k w).Nodup ∧
        ∀ i ∈ choice seed n k w, i < n) :
    (∃ res, observation_cull choice log10 params cat = some res ∧
      res.nhalo = params.goal_nobj ∧ res.halos.length = params.goal_nobj ∧
      res.halos.Nodup ∧ ∀ h ∈ res.halos, h ∈ cat.halos) ∧
    (params2.lcat_cutoff = params.lcat_cutoff → params2.goal_nobj = params.goal_nobj →
      params2.obs_weight = params.obs_weight → params2.vcat_seed = params.vcat_seed →
      observation_cull choice log10 params2 cat = observation_cull choice log10 params cat) := by
  constructor
  · have hcutlen : (observation_lumcut params cat).nhalo
        = (observation_lumcut params cat).halos.length := rfl
    have hcutnodup : (observation_lumcut params cat).halos.Nodup :=
      List.Nodup.filter _ hnodup
    have hcutsub : ∀ h ∈ (observation_lumcut params cat).halos, h ∈ cat.halos :=
      fun h hh => (List.mem_filter.mp hh).1
    have hkn' : params.goal_nobj ≤ (observation_lumcut params cat).nhalo := by
      rw [hcutlen]; exact hkn
    rcases hw with hw | hw
    · rw [observation_cull, if_pos hk, if_pos hw]
      refine ⟨_, rfl, ?_, ?_, ?_, ?_⟩
      all_goals
        obtain ⟨hlen, hnd, hbd⟩ := hchoice params.vcat_seed
          (observation_lumcut params cat).nhalo params.goal_nobj
          ((observation_lumcut params cat).halos.map
            (fun h => h.Lcat / ((observation_lumcut params cat).halos.map HaloRec.Lcat).sum))
          hkn'
      · exact (filterMap_getElem_length _ _
          (fun i hi => lt_of_lt_of_le (hbd i hi) hcutlen.le)).trans hlen
      · exact (filterMap_getElem_length _ _
          (fun i hi => lt_of_lt_of_le (hbd i hi) hcutlen.le)).trans hlen
      · exact filterMap_getElem_nodup _ hcutnodup _ hnd
          (fun i hi => lt_of_lt_of_le (hbd i hi) hcutlen.le)
      · intro h hh
        exact hcutsub h (filterMap_getElem_subset _ _ h hh)
    · rw [observation_cull, if_pos hk]
      rw [if_neg (by rw [hw]; decide), if_pos hw]
      refine ⟨_, rfl, ?_, ?_, ?_, ?_⟩
      all_goals
        obtain ⟨hlen, hnd, hbd⟩ := hchoice params.vcat_seed
          (observation_lumcut params cat).nhalo params.goal_nobj
          ((observation_lumcut params cat).halos.map
            (fun h => log10 h.Lcat /
              ((observation_lumcut params cat).halos.map (fun g => log10 g.Lcat)).sum))
          hkn'
      · exact (filterMap_getElem_length _ _
          (fun i hi => lt_of_lt_of_le (hbd i hi) hcutlen.le)).trans hlen
      · exact (filterMap_getElem_length _ _
          (fun i hi => lt_of_lt_of_le (hbd i hi) hcutlen.le)).trans hlen
      · exact filterMap_getElem_nodup _ hcutnodup _ hnd
          (fun i hi => lt_of_lt_of_le (hbd i hi) hcutlen.le)
      · intro h hh
        exact hcutsub h (filterMap_getElem_subset _ _ h hh)
  · intro h1 h2 h3 h4
    simp only [observation_cull, observation_lumcut, attrcut_subset, h1, h2, h3, h4]

/-- Witness for C9 at a concrete two-halo catalog with a range-based choice
oracle. -/
theorem C9_observation_cull_spec_witness :
    ∃ res, observation_cull choice0 log10q0 simParams0 qcat2 = some res ∧
      res.nhalo = 1 ∧ res.halos.length = 1 ∧ res.halos.Nodup ∧
      ∀ h ∈ res.halos, h ∈ qcat2.halos :=
  (C9_observation_cull_spec choice0 log10q0 simParams0 simParams0 qcat2
    (by decide) (by decide) (Or.inl rfl)
    (by
      have h2 : max (5 : ℚ) 7 = 7 := max_eq_right (by norm_num)
      have hmax : nanmax (qcat2.halos.map HaloRec.Lcat) = 7 := by
        simp [nanmax, qcat2, qrecA, qrecB, max_self, h2]
      have hmem : qrecA ∈ (observation_lumcut simParams0 qcat2).halos := by
        refine List.mem_filter.mpr ⟨by simp [qcat2], decide_eq_true ?_⟩
        constructor
        · norm_num [simParams0, attrLookup, qrecA]
        · rw [hmax]
          norm_num [attrLookup, qrecA]
      exact List.length_pos_of_mem hmem)
    (fun seed n k w hkn => ⟨List.length_range k, List.nodup_range k,
      fun i hi => lt_of_lt_of_le (List.mem_range.mp hi) hkn⟩)).1

theorem map_getD_lt (g : ℝ → ℝ) (l : List ℝ) (k : ℕ) (hk : k < l.length) :
    (l.map g).getD k 0 = g l[k] := by
  rw [List.getD_eq_getElem _ _ (by rw [List.length_map]; exact hk), List.getElem_map]

set_option maxRecDepth 16000 in
set_option maxHeartbeats 1000000 in
/-- C6: the abundance-matching assignment (a pure function of its inputs —
no random generator is consulted anywhere in `abundancematch` or
`halomassfunction`) is monotone in halo mass: under nonnegativity of the
luminosity-function shape, a positive survey volume and an ordered
integration range, a halo of strictly lower (positive) mass receives a
matched catalog luminosity no larger than that of a higher-mass halo. -/
theorem C6_abundancematch_monotone (fn : ℝ → List ℝ → ℝ) (coeffs : List ℝ)
    (halos : Halos) (params : LumParams)
    (hfn : ∀ x, 0 ≤ fn x coeffs)
    (hvol : 0 < simVolume halos params)
    (hL : coeffs.getD (coeffs.length - 2) 0 ≤ coeffs.getD (coeffs.length - 1) 0)
    (i j : ℕ) (hi : i < halos.M.length) (hj : j < halos.M.length)
    (hMi : 0 < halos.M.getD i 0) (hij : halos.M.getD i 0 < halos.M.getD j 0) :
    (abundancematch fn coeffs halos params).2.1.getD i 0
      ≤ (abundancematch fn coeffs halos params).2.1.getD j 0 := by
  have hMi' : 0 < halos.M[i] := by rwa [List.getD_eq_getElem _ _ hi] at hMi
  have hij' : halos.M[i] < halos.M[j] := by
    rwa [List.getD_eq_getElem _ _ hi, List.getD_eq_getElem _ _ hj] at hij
  have hout : (abundancematch fn coeffs halos params).2.1
      = ((halos.M.map (fun m => npinterp (Real.logb 10 m)
            (halomassfunction halos params).1 (halomassfunction halos params).2)).map
          (fun v => npinterp v
            (suffixSums (List.zipWith (· * ·)
              ((binCenters ((logspace (coeffs.getD (coeffs.length - 2) 0)
                  (coeffs.getD (coeffs.length - 1) 0) 101).map (Real.logb 10))).map
                (fun l => fn ((10 : ℝ) ^ l) coeffs))
              (diffs (((logspace (coeffs.getD (coeffs.length - 2) 0)
                  (coeffs.getD (coeffs.length - 1) 0) 101).map (Real.logb 10)).map
                (fun x => (10 : ℝ) ^ x))))).reverse
            ((binCenters ((logspace (coeffs.getD (coeffs.length - 2) 0)
                (coeffs.getD (coeffs.length - 1) 0) 101).map (Real.logb 10))).reverse))).map
          (fun x => (10 : ℝ) ^ x / 3.826e33) := rfl
  have hlogL : List.Chain' (· ≤ ·) ((logspace (coeffs.getD (coeffs.length - 2) 0)
      (coeffs.getD (coeffs.length - 1) 0) 101).map (Real.logb 10)) := by
    rw [log10_logspace]
    exact chain'_le_linspace _ _ 101 hL
  have hcents : List.Chain' (· ≤ ·) (binCenters ((logspace (coeffs.getD (coeffs.length - 2) 0)
      (coeffs.getD (coeffs.length - 1) 0) 101).map (Real.logb 10))) :=
    binCenters_chain hlogL
  have hdLpar : List.Chain' (· ≤ ·) (((logspace (coeffs.getD (coeffs.length - 2) 0)
      (coeffs.getD (coeffs.length - 1) 0) 101).map (Real.logb 10)).map
        (fun x => (10 : ℝ) ^ x)) :=
    (List.chain'_map _).mpr (List.Chain'.imp
      (fun x y hxy => Real.rpow_le_rpow_of_exponent_le (by norm_num) hxy) hlogL)
  have hphidl : ∀ x ∈ List.zipWith (· * ·)
      ((binCenters ((logspace (coeffs.getD (coeffs.length - 2) 0)
          (coeffs.getD (coeffs.length - 1) 0) 101).map (Real.logb 10))).map
        (fun l => fn ((10 : ℝ) ^ l) coeffs))
      (diffs (((logspace (coeffs.getD (coeffs.length - 2) 0)
          (coeffs.getD (coeffs.length - 1) 0) 101).map (Real.logb 10)).map
        (fun x => (10 : ℝ) ^ x))), 0 ≤ x := by
    apply zipWith_mul_nonneg
    · intro x hx
      obtain ⟨l, -, rfl⟩ := List.mem_map.mp hx
      exact hfn _
    · exact diffs_nonneg hdLpar
  have hxp2 : List.Chain' (· ≤ ·) (suffixSums (List.zipWith (· * ·)
      ((binCenters ((logspace (coeffs.getD (coeffs.length - 2) 0)
          (coeffs.getD (coeffs.length - 1) 0) 101).map (Real.logb 10))).map
        (fun l => fn ((10 : ℝ) ^ l) coeffs))
      (diffs (((logspace (coeffs.getD (coeffs.length - 2) 0)
          (coeffs.getD (coeffs.length - 1) 0) 101).map (Real.logb 10)).map
        (fun x => (10 : ℝ) ^ x))))).reverse :=
    List.chain'_reverse.mpr (suffixSums_chain hphidl)
  have hfp2 : List.Chain' (· ≥ ·)
      (binCenters ((logspace (coeffs.getD (coeffs.length - 2) 0)
        (coeffs.getD (coeffs.length - 1) 0) 101).map (Real.logb 10))).reverse :=
    List.chain'_reverse.mpr hcents
  have hm1 : List.Chain' (· ≤ ·) (halomassfunction halos params).1 := by
    show List.Chain' (· ≤ ·) (binCenters (linspace (listMin (halos.M.map (Real.logb 10)))
      (listMax (halos.M.map (Real.logb 10))) 501))
    exact binCenters_chain (chain'_le_linspace _ _ 501 (listMin_le_listMax _))
  have hm2 : List.Chain' (· ≥ ·) (halomassfunction halos params).2 := by
    show List.Chain' (· ≥ ·) (suffixSums (List.zipWith (· * ·)
      ((histCounts (halos.M.map (Real.logb 10)) (linspace (listMin (halos.M.map (Real.logb 10)))
        (listMax (halos.M.map (Real.logb 10))) 501)).map
          (fun n : ℕ => (n : ℝ) / simVolume halos params))
      (diffs (linspace (listMin (halos.M.map (Real.logb 10)))
        (listMax (halos.M.map (Real.logb 10))) 501))))
    apply suffixSums_chain
    apply zipWith_mul_nonneg
    · intro x hx
      obtain ⟨n, -, rfl⟩ := List.mem_map.mp hx
      exact div_nonneg (Nat.cast_nonneg n) hvol.le
    · exact diffs_nonneg (chain'_le_linspace _ _ 501 (listMin_le_listMax _))
  have h1 : Real.logb 10 halos.M[i] ≤ Real.logb 10 halos.M[j] :=
    Real.logb_le_logb_of_le (by norm_num) hMi' hij'.le
  have h2 := npinterp_antitone (halomassfunction halos params).1
    (halomassfunction halos params).2 hm1 hm2 _ _ h1
  have h3 := npinterp_antitone _ _ hxp2 hfp2 _ _ h2
  have h4 := Real.rpow_le_rpow_of_exponent_le (by norm_num : (1 : ℝ) ≤ 10) h3
  rw [hout, List.map_map, List.map_map, map_getD_lt _ _ _ hi, map_getD_lt _ _ _ hj]
  simp only [Function.comp_apply]
  exact (div_le_div_iff_of_pos_right (by norm_num : (0 : ℝ) < 3.826e33)).mpr h4

set_option maxRecDepth 16000 in
set_option maxHeartbeats 1000000 in
/-- Witness for C6 at a concrete two-halo catalog with a constant-zero
luminosity-function shape and the identity comoving-volume oracle. -/
theorem C6_abundancematch_monotone_witness :
    (abundancematch fn0 [(0 : ℝ), 1] halosC6 lumParams0).2.1.getD 0 0
      ≤ (abundancematch fn0 [(0 : ℝ), 1] halosC6 lumParams0).2.1.getD 1 0 :=
  C6_abundancematch_monotone fn0 [0, 1] halosC6 lumParams0
    (fun x => le_refl 0)
    (by
      show (0 : ℝ) < ((1 : ℝ) - 0) / (4 * Real.pi) * (1 * 1 * (Real.pi / 180) ^ 2)
      positivity)
    (by simp)
    0 1 (by simp [halosC6, halos0]) (by simp [halosC6, halos0])
    (by norm_num [halosC6, halos0]) (by norm_num [halosC6, halos0])
